import Mathlib

/-!
Verification development for the dcrd block-processing slice.

Part A embeds the concatenated hash / vote-bits hex codecs of the dcrjson
package.  The codec implementations themselves are not part of the shown
sources; only their test corpus is (src/unnamed/part_000).  The definitions
below are therefore modelled from the specification of the wire format
(spec §6, collaborator contract "RPC codec") with the in-repository test
corpus as the authority for every concrete byte: in particular the corpus
pins a ONE-byte total-record-length prefix for vote-bits records
(TestEncodeConcatenatedVoteBits expects `02 00 00 | 03 00 00 00 | ...`).

Part B embeds ProcessBlock from src/blockchain/process.go.  Its callees
(checkBlockSanityContextFree, isTreasuryAgendaActiveByHash,
checkBlockSanityContextual, maybeAcceptBlock) are absent from the shown
sources, so ProcessBlock is parameterised over them; a concrete Chain
Acceptor modelled from spec §4.4 is provided for the end-to-end scenarios.
-/

namespace DcrdSpec

/-! ## Hexadecimal transport layer (hex.EncodeToString / hex.DecodeString) -/

/-- Lowercase hexadecimal digit for a nibble, as Go's hex.EncodeToString
produces. -/
def hexDigitChar (n : Nat) : Char :=
  if n < 10 then Char.ofNat (48 + n) else Char.ofNat (87 + n)

/-- Value of a hexadecimal digit character; accepts both cases, as Go's
hex.DecodeString does.  Returns none for a non-hex character. -/
def hexDigitVal (c : Char) : Option Nat :=
  if 48 ≤ c.toNat ∧ c.toNat ≤ 57 then some (c.toNat - 48)
  else if 97 ≤ c.toNat ∧ c.toNat ≤ 102 then some (c.toNat - 87)
  else if 65 ≤ c.toNat ∧ c.toNat ≤ 70 then some (c.toNat - 55)
  else none

/-- Two hex characters for one byte, most significant nibble first. -/
def byteToHex (b : Nat) : List Char :=
  [hexDigitChar (b / 16), hexDigitChar (b % 16)]

/-- Hex characters of a byte sequence, in order. -/
def hexEncodeChars (bs : List Nat) : List Char :=
  (bs.map byteToHex).flatten

/-- Hex string of a byte sequence (hex.EncodeToString). -/
def bytesToHexString (bs : List Nat) : String :=
  String.mk (hexEncodeChars bs)

/-- Decode a hex character sequence to bytes; fails on an odd number of
characters or on a non-hex character (hex.DecodeString). -/
def hexDecodeChars : List Char → Option (List Nat)
  | [] => some []
  | [_] => none
  | c1 :: c2 :: rest =>
    match hexDigitVal c1, hexDigitVal c2, hexDecodeChars rest with
    | some hi, some lo, some bs => some ((16 * hi + lo) :: bs)
    | _, _, _ => none

/-- Decode a hex string to bytes (hex.DecodeString). -/
def hexDecodeString (s : String) : Option (List Nat) :=
  hexDecodeChars s.toList

/-! ## Codec error outcomes -/

/-- Error outcomes of the dcrjson concatenated codecs.  The Go code returns
descriptive error values; only their presence and rough class matter here. -/
inductive CodecErr where
  | invalidHex
  | shortRead
  | invalidLength
  | extTooLong
deriving DecidableEq

/-- Decidable equality of Except outcomes, for evaluating codec results on
concrete inputs. -/
instance {ε α : Type} [DecidableEq ε] [DecidableEq α] : DecidableEq (Except ε α) := fun x y =>
  match x, y with
  | .ok a, .ok b =>
    if h : a = b then isTrue (by rw [h])
    else isFalse (fun hc => h (Except.ok.inj hc))
  | .error a, .error b =>
    if h : a = b then isTrue (by rw [h])
    else isFalse (fun hc => h (Except.error.inj hc))
  | .ok _, .error _ => isFalse (fun hc => Except.noConfusion hc)
  | .error _, .ok _ => isFalse (fun hc => Except.noConfusion hc)

/-- Boolean test for an error outcome of a codec operation. -/
def isCodecErr {α : Type} : Except CodecErr α → Bool
  | .error _ => true
  | .ok _ => false

/-! ## Concatenated hashes codec -/

/-- Width in bytes of a chainhash.Hash. -/
def HashSize : Nat := 32

/-- Modelled from the spec: EncodeConcatenatedHashes serialises each hash as
its fixed-width raw bytes concatenated in order with no separators and hex
encodes the result; the implementation is absent from the shown sources.
A hash is represented as its byte list. -/
def EncodeConcatenatedHashes (hs : List (List Nat)) : String :=
  bytesToHexString hs.flatten

/-- Split a byte sequence into consecutive HashSize-byte chunks, with
explicit fuel to keep the recursion structural. -/
def chunkFuel : Nat → List Nat → List (List Nat)
  | _, [] => []
  | 0, _ :: _ => []
  | fuel + 1, b :: bs =>
    (b :: bs).take HashSize :: chunkFuel fuel ((b :: bs).drop HashSize)

/-- Split a byte sequence into consecutive HashSize-byte chunks. -/
def chunkHashes (bs : List Nat) : List (List Nat) :=
  chunkFuel bs.length bs

/-- Modelled from the spec: DecodeConcatenatedHashes hex decodes the string
and splits it into fixed-width hashes, failing on malformed hex or on a
byte length that is not a multiple of the hash width; the implementation is
absent from the shown sources. -/
def DecodeConcatenatedHashes (s : String) : Except CodecErr (List (List Nat)) :=
  match hexDecodeString s with
  | none => .error .invalidHex
  | some bs =>
    if bs.length % HashSize == 0 then .ok (chunkHashes bs)
    else .error .invalidLength

/-! ## Concatenated vote-bits codec -/

/-- Stake vote bits: a 16-bit Bits field plus variable-length extended
bytes (stake.VoteBits). -/
structure VoteBits where
  Bits : Nat
  ExtendedBits : List Nat
deriving DecidableEq

/-- Maximum byte length of a single-byte script push; the vote-bits record
(2-byte Bits plus extended bits) must fit in it, so the extended bits are
limited to this value minus 2.  The in-repository corpus pins that 5
extended bytes encode and 74 fail. -/
def MaxSingleBytePushLength : Nat := 75

/-- Serialised form of one vote-bits record: a one-byte total-record-length
prefix (2 for the Bits field plus the extended length), the 2-byte
little-endian Bits field, then the extended bytes.  Modelled from the spec
and corrected against the in-repository corpus, which pins the one-byte
prefix. -/
def encodeVoteBitsRecord (vb : VoteBits) : List Nat :=
  (2 + vb.ExtendedBits.length) :: (vb.Bits % 256) :: (vb.Bits / 256) :: vb.ExtendedBits

/-- Concatenated serialised records of a vote-bits list. -/
def encodeVoteBitsBytes (l : List VoteBits) : List Nat :=
  (l.map encodeVoteBitsRecord).flatten

/-- Modelled from the spec: EncodeConcatenatedVoteBits fails when any
record's extended bits exceed the maximum allowed size and otherwise
returns the hex string of the concatenated records; the implementation is
absent from the shown sources. -/
def EncodeConcatenatedVoteBits (l : List VoteBits) : Except CodecErr String :=
  if l.any (fun vb => decide (MaxSingleBytePushLength - 2 < vb.ExtendedBits.length)) then
    .error .extTooLong
  else
    .ok (bytesToHexString (encodeVoteBitsBytes l))

/-- Decode loop over the raw bytes of concatenated vote-bits records, with
explicit fuel to keep the recursion structural.  Each step reads the
one-byte record length, rejects a length below the minimum 2-byte Bits
field, rejects a record that runs past the end of the input, and otherwise
reads the little-endian Bits field and the extended bytes. -/
def decodeVoteBitsFuel : Nat → List Nat → Except CodecErr (List VoteBits)
  | _, [] => .ok []
  | 0, _ :: _ => .error .shortRead
  | fuel + 1, recLen :: rest =>
    if recLen < 2 then .error .invalidLength
    else if rest.length < recLen then .error .shortRead
    else
      match decodeVoteBitsFuel fuel (rest.drop recLen) with
      | .ok vbs =>
        .ok (⟨rest.getD 0 0 + 256 * rest.getD 1 0, (rest.drop 2).take (recLen - 2)⟩ :: vbs)
      | .error e => .error e

/-- Decode loop over the raw bytes of concatenated vote-bits records. -/
def decodeVoteBitsList (bs : List Nat) : Except CodecErr (List VoteBits) :=
  decodeVoteBitsFuel bs.length bs

/-- Modelled from the spec: DecodeConcatenatedVoteBits hex decodes the
string and parses consecutive length-prefixed records, failing on malformed
hex, truncated input, trailing bytes, or a length prefix inconsistent with
the minimum 2-byte Bits field; the implementation is absent from the shown
sources. -/
def DecodeConcatenatedVoteBits (s : String) : Except CodecErr (List VoteBits) :=
  match hexDecodeString s with
  | none => .error .invalidHex
  | some bs => decodeVoteBitsList bs

/-- Well-formedness of one vote-bits record: the Bits field fits 16 bits,
the extended bytes are bytes, and their count respects the encoding bound. -/
def WFVoteBits (vb : VoteBits) : Prop :=
  vb.Bits < 65536 ∧ vb.ExtendedBits.length ≤ MaxSingleBytePushLength - 2 ∧
    ∀ x ∈ vb.ExtendedBits, x < 256

instance : DecidablePred WFVoteBits := fun vb => by
  unfold WFVoteBits; infer_instance

/-- Well-formedness of a vote-bits list. -/
def WFVoteBitsList (l : List VoteBits) : Prop :=
  ∀ vb ∈ l, WFVoteBits vb

instance : DecidablePred WFVoteBitsList := fun l => by
  unfold WFVoteBitsList; infer_instance

/-- Well-formedness of a hash: exactly HashSize bytes, each a byte. -/
def WFHash (h : List Nat) : Prop :=
  h.length = HashSize ∧ ∀ b ∈ h, b < 256

instance : DecidablePred WFHash := fun h => by
  unfold WFHash; infer_instance

/-- Well-formedness of a hash list. -/
def WFHashList (l : List (List Nat)) : Prop :=
  ∀ h ∈ l, WFHash h

instance : DecidablePred WFHashList := fun l => by
  unfold WFHashList; infer_instance

/-! ## Block-processing core (src/blockchain/process.go) -/

/-- Hash identifying a block; a fixed-width digest whose equality is
byte-exact, modelled as a natural number identity. -/
abbrev BlockHash := Nat

/-- Candidate block as ProcessBlock consumes it: its content hash, the
parent hash declared in its header (header.PrevBlock), and the work its
header contributes to cumulative work. -/
structure Block where
  hash : BlockHash
  prevBlock : BlockHash
  work : Nat
deriving DecidableEq

/-- Block index entry: per-block metadata (hash, parent hash, height,
cumulative work, main-chain membership). -/
structure Entry where
  hash : BlockHash
  parent : BlockHash
  height : Nat
  workSum : Nat
  inMainChain : Bool
deriving DecidableEq

/-- Chain state: the block index (all known main-chain and side-chain
entries) together with the best-chain pointer. -/
structure BlockChain where
  entries : List Entry
  tip : BlockHash
deriving DecidableEq

/-- Lookup of a block index entry by hash. -/
def lookupEntry (b : BlockChain) (h : BlockHash) : Option Entry :=
  b.entries.find? (fun e => e.hash == h)

/-- Membership test over all known blocks, main chain and side chains
(b.index.HaveBlock). -/
def HaveBlock (b : BlockChain) (h : BlockHash) : Bool :=
  (lookupEntry b h).isSome

/-- Error outcomes of block processing.  ruleErr carries the consensus
rule-error code (the human-readable message built with fmt.Sprintf is
elided); other stands for any distinct error value produced by a callee. -/
inductive ErrorCode where
  | ErrDuplicateBlock
  | ErrMissingParent
deriving DecidableEq

/-- Error values surfaced by ProcessBlock and its callees. -/
inductive ChainErr where
  | ruleErr : ErrorCode → ChainErr
  | other : Nat → ChainErr
deriving DecidableEq

/-- Construction of a rule error from its code (ruleError in the source;
the message string is elided). -/
def ruleError (c : ErrorCode) : ChainErr :=
  ChainErr.ruleErr c

/-- BehaviorFlags bitmask: BFFastAdd. -/
def BFFastAdd : Nat := 1

/-- BehaviorFlags bitmask: BFNoPoWCheck. -/
def BFNoPoWCheck : Nat := 2

/-- BehaviorFlags bitmask: BFNone. -/
def BFNone : Nat := 0

/-- Callees of ProcessBlock.  They are declared in the repository but their
bodies are not among the shown sources, so ProcessBlock is parameterised
over them: checkBlockSanityContextFree and checkBlockSanityContextual
return an error or none (the time source and chain parameters they also
receive are fixed inside each function value), isTreasuryAgendaActiveByHash
resolves the treasury agenda at a hash, and maybeAcceptBlock either fails
or returns the fork length together with the updated chain state — per
spec §7 an error leaves the candidate's effects fully absent, which the
Except shape makes explicit. -/
structure Env where
  checkBlockSanityContextFree : Block → Nat → Option ChainErr
  isTreasuryAgendaActiveByHash : BlockChain → BlockHash → Except ChainErr Bool
  checkBlockSanityContextual : Block → Nat → Bool → Option ChainErr
  maybeAcceptBlock : BlockChain → Block → Nat → Except ChainErr (Int × BlockChain)

/-- ProcessBlock (src/blockchain/process.go lines 49-116), in state-passing
form: the returned triple is the chain state after the call, the fork
length, and the error (Go returns the pair (int64, error) and mutates the
receiver).  Locking and logging have no observable effect on the returned
values and are elided.  The step order is the source's: duplicate check,
context-free sanity, parent-existence check, agenda resolution,
context-dependent sanity, then maybeAcceptBlock; every error path returns
fork length 0 and the unchanged state. -/
def ProcessBlock (env : Env) (b : BlockChain) (block : Block) (flags : Nat) :
    BlockChain × Int × Option ChainErr :=
  if HaveBlock b block.hash then
    (b, 0, some (ruleError .ErrDuplicateBlock))
  else
    match env.checkBlockSanityContextFree block flags with
    | some e => (b, 0, some e)
    | none =>
      if !(HaveBlock b block.prevBlock) then
        (b, 0, some (ruleError .ErrMissingParent))
      else
        match env.isTreasuryAgendaActiveByHash b block.prevBlock with
        | .error e => (b, 0, some e)
        | .ok isTreasuryEnabled =>
          match env.checkBlockSanityContextual block flags isTreasuryEnabled with
          | some e => (b, 0, some e)
          | none =>
            match env.maybeAcceptBlock b block flags with
            | .error e => (b, 0, some e)
            | .ok (forkLen, b2) => (b2, forkLen, none)

/-! ## Chain Acceptor modelled from the spec -/

/-- Walk parent links from a side-chain position back to the first
main-chain ancestor (the fork point with the best chain), with fuel
bounding the walk by the height. -/
def forkPoint (b : BlockChain) : Nat → BlockHash → Option Entry
  | 0, _ => none
  | fuel + 1, h =>
    match lookupEntry b h with
    | none => none
    | some e => if e.inMainChain then some e else forkPoint b fuel e.parent

/-- Hashes of the side-chain entries strictly between a position and its
fork point with the best chain, newest first. -/
def sidePath (b : BlockChain) : Nat → BlockHash → List BlockHash
  | 0, _ => []
  | fuel + 1, h =>
    match lookupEntry b h with
    | none => []
    | some e => if e.inMainChain then [] else h :: sidePath b fuel e.parent

/-- Modelled from the spec: maybeAcceptBlock and the Chain Acceptor it
invokes (spec §4.4) are absent from the shown sources.  Given a block whose
parent is known, it links a new entry under the parent; if the parent is
the best tip the block extends the best chain (fork length 0, pointer
advances); if the new cumulative work strictly exceeds the best tip's, the
old main-chain entries above the fork point are demoted, the new branch is
promoted and the pointer moves to the block — the fork length returned in
this case is 0 per the documented contract of ProcessBlock
(src/blockchain/process.go lines 43-46: a block that "is now the tip of the
best chain due to causing a reorganize" has fork length 0); otherwise the
block is recorded on a side chain with fork length equal to its distance
from the fork point.  An unknown parent is an internal error per §4.3. -/
def maybeAcceptBlockSpec (b : BlockChain) (block : Block) (_flags : Nat) :
    Except ChainErr (Int × BlockChain) :=
  match lookupEntry b block.prevBlock with
  | none => .error (ChainErr.other 0)
  | some parentE =>
    let newHeight := parentE.height + 1
    let newWork := parentE.workSum + block.work
    if block.prevBlock == b.tip then
      .ok (0, ⟨b.entries ++ [⟨block.hash, block.prevBlock, newHeight, newWork, true⟩],
               block.hash⟩)
    else
      match forkPoint b (parentE.height + 1) block.prevBlock with
      | none => .error (ChainErr.other 1)
      | some forkE =>
        let tipWork := match lookupEntry b b.tip with
          | some tipE => tipE.workSum
          | none => 0
        if tipWork < newWork then
          let path := sidePath b (parentE.height + 1) block.prevBlock
          let entries2 := b.entries.map (fun e =>
            if e.inMainChain && decide (forkE.height < e.height) then
              { e with inMainChain := false }
            else if path.contains e.hash then
              { e with inMainChain := true }
            else e)
          .ok (0, ⟨entries2 ++ [⟨block.hash, block.prevBlock, newHeight, newWork, true⟩],
                   block.hash⟩)
        else
          .ok ((newHeight : Int) - (forkE.height : Int),
               ⟨b.entries ++ [⟨block.hash, block.prevBlock, newHeight, newWork, false⟩],
                b.tip⟩)

/-- Trivial acceptor that records nothing; used to exercise the coordinator
on paths that never reach acceptance. -/
def idAccept : BlockChain → Block → Nat → Except ChainErr (Int × BlockChain) :=
  fun b _ _ => .ok (0, b)

/-- Environment whose sanity checks always pass, whose agenda resolver
answers false, and whose acceptor is the trivial one. -/
def trivialEnv : Env :=
  ⟨fun _ _ => none, fun _ _ => .ok false, fun _ _ _ => none, idAccept⟩

/-- Environment whose sanity checks always pass, whose agenda resolver
answers false, and whose acceptor is the spec-modelled Chain Acceptor. -/
def specEnv : Env :=
  ⟨fun _ _ => none, fun _ _ => .ok false, fun _ _ _ => none, maybeAcceptBlockSpec⟩

/-! ## Concrete scenario states -/

/-- Chain state of the spec §8 reorganization scenario: best chain
A1(hash 1) → A2(hash 2) → A3(hash 3) at heights 0,1,2 with cumulative work
1,2,3 and the pointer on A3; side branch B1(hash 11) → B2(hash 12) sharing
ancestor A1, with the same per-block work. -/
def c1State : BlockChain :=
  ⟨[⟨1, 0, 0, 1, true⟩, ⟨2, 1, 1, 2, true⟩, ⟨3, 2, 2, 3, true⟩,
    ⟨11, 1, 1, 2, false⟩, ⟨12, 11, 2, 3, false⟩], 3⟩

/-- Block B3 of the reorganization scenario: child of B2 whose work pushes
the side branch's cumulative work to 5, exceeding A3's 3. -/
def c1B3 : Block := ⟨13, 12, 2⟩

/-- Block that extends the best tip A3 of c1State. -/
def wExt : Block := ⟨4, 3, 1⟩

/-- Block whose hash is already present in c1State (a duplicate of A3). -/
def wDup : Block := ⟨3, 2, 1⟩

/-- Block whose declared parent is unknown to c1State (an orphan). -/
def wOrphan : Block := ⟨99, 98, 1⟩

/-- Chain state holding only a root entry (hash 5) whose own parent hash 4
is absent from the index, as a genesis entry's is. -/
def c3State : BlockChain := ⟨[⟨5, 4, 0, 1, true⟩], 5⟩

/-- Candidate equal to the root of c3State: its hash is already present
while its declared parent hash is absent from the index. -/
def c3Block : Block := ⟨5, 4, 1⟩

/-! ## Theorems about ProcessBlock -/

/-- Shared shape of every error return of ProcessBlock: the chain state
comes back unchanged and the fork length is 0, on all paths
(src/blockchain/process.go lines 64-111). -/
theorem processBlock_error_cases (env : Env) (b : BlockChain) (block : Block) (flags : Nat)
    (b2 : BlockChain) (fl : Int) (e : ChainErr)
    (h : ProcessBlock env b block flags = (b2, fl, some e)) :
    b2 = b ∧ fl = 0 := by
  unfold ProcessBlock at h
  repeat' split at h
  all_goals simp_all

/-- C2: every block whose hash is already present in the block index is
rejected with the duplicate-block rule error and the chain state comes back
unchanged; the outcome is the same for every choice of sanity checkers,
agenda resolver and acceptor, so no validation work influences it. -/
theorem C2_duplicate_rejected (env : Env) (b : BlockChain) (block : Block) (flags : Nat)
    (h : HaveBlock b block.hash = true) :
    ProcessBlock env b block flags = (b, 0, some (ruleError .ErrDuplicateBlock)) := by
  simp [ProcessBlock, h]

/-- C2 witness: reprocessing A3 of the reorganization scenario state is
rejected as a duplicate with the state unchanged. -/
theorem C2_duplicate_rejected_witness :
    ProcessBlock trivialEnv c1State wDup 0 =
      (c1State, 0, some (ruleError .ErrDuplicateBlock)) :=
  C2_duplicate_rejected trivialEnv c1State wDup 0 (by decide)

/-- C3 counterexample: a block whose declared parent hash is absent from
the index is not always rejected with the missing-parent error — when its
own hash is already present (as when the genesis entry itself is
re-presented) the duplicate check fires first and returns the duplicate
error instead. -/
theorem C3_missing_parent_counterexample :
    HaveBlock c3State c3Block.prevBlock = false ∧
    ProcessBlock trivialEnv c3State c3Block 0 =
      (c3State, 0, some (ruleError .ErrDuplicateBlock)) ∧
    ruleError .ErrDuplicateBlock ≠ ruleError .ErrMissingParent := by
  refine ⟨by decide, by decide, by decide⟩

/-- C3 (amended): every block whose hash is not already in the index, that
passes the context-free sanity checks, and whose declared parent hash is
absent from the index, is rejected with the missing-parent rule error with
the index unchanged and nothing inserted; the outcome is independent of the
agenda resolver, the contextual checker and the acceptor, which never run. -/
theorem C3_missing_parent_amended (env : Env) (b : BlockChain) (block : Block) (flags : Nat)
    (h1 : HaveBlock b block.hash = false)
    (h2 : env.checkBlockSanityContextFree block flags = none)
    (h3 : HaveBlock b block.prevBlock = false) :
    ProcessBlock env b block flags = (b, 0, some (ruleError .ErrMissingParent)) := by
  simp [ProcessBlock, h1, h2, h3]

/-- C3 witness: an orphan block presented to the reorganization scenario
state is rejected with the missing-parent error and the state is
unchanged. -/
theorem C3_missing_parent_amended_witness :
    ProcessBlock trivialEnv c1State wOrphan 0 =
      (c1State, 0, some (ruleError .ErrMissingParent)) :=
  C3_missing_parent_amended trivialEnv c1State wOrphan 0 (by decide) rfl (by decide)

/-- C4: once the duplicate, context-free sanity and parent-existence steps
have passed, the agenda-activation flag is resolved from the candidate's
parent hash (hypothesis h4 names block.prevBlock, never block.hash), the
resolution happens before the context-dependent phase, and the resolved
flag t is what the context-dependent checker receives as an explicit
parameter: the remainder of the call is exactly the contextual check at t
followed by acceptance. -/
theorem C4_agenda_from_parent (env : Env) (b : BlockChain) (block : Block) (flags : Nat)
    (t : Bool)
    (h1 : HaveBlock b block.hash = false)
    (h2 : env.checkBlockSanityContextFree block flags = none)
    (h3 : HaveBlock b block.prevBlock = true)
    (h4 : env.isTreasuryAgendaActiveByHash b block.prevBlock = .ok t) :
    ProcessBlock env b block flags =
      (match env.checkBlockSanityContextual block flags t with
       | some e => (b, 0, some e)
       | none =>
         match env.maybeAcceptBlock b block flags with
         | .error e => (b, 0, some e)
         | .ok (forkLen, b2) => (b2, forkLen, none)) := by
  simp [ProcessBlock, h1, h2, h3, h4]

/-- C4 witness: for the block extending the tip of the scenario state, the
call reduces to the contextual check at the flag resolved from the parent
followed by acceptance. -/
theorem C4_agenda_from_parent_witness :
    ProcessBlock specEnv c1State wExt 0 =
      (match specEnv.checkBlockSanityContextual wExt 0 false with
       | some e => (c1State, 0, some e)
       | none =>
         match specEnv.maybeAcceptBlock c1State wExt 0 with
         | .error e => (c1State, 0, some e)
         | .ok (forkLen, b2) => (b2, forkLen, none)) :=
  C4_agenda_from_parent specEnv c1State wExt 0 false (by decide) rfl (by decide) rfl

/-- C5: ProcessBlock performs its steps in the source's order — duplicate
check, context-free sanity, parent-existence check, agenda resolution,
context-dependent sanity, then acceptance — and each step's failure
returns (state unchanged, fork length 0) before any later step can
influence the outcome: every conjunct holds for all later-stage
functions. -/
theorem C5_step_order (b : BlockChain) (block : Block) (flags : Nat) :
    (∀ env : Env, HaveBlock b block.hash = true →
      ProcessBlock env b block flags = (b, 0, some (ruleError .ErrDuplicateBlock)))
    ∧ (∀ (env : Env) (e : ChainErr), HaveBlock b block.hash = false →
      env.checkBlockSanityContextFree block flags = some e →
      ProcessBlock env b block flags = (b, 0, some e))
    ∧ (∀ env : Env, HaveBlock b block.hash = false →
      env.checkBlockSanityContextFree block flags = none →
      HaveBlock b block.prevBlock = false →
      ProcessBlock env b block flags = (b, 0, some (ruleError .ErrMissingParent)))
    ∧ (∀ (env : Env) (e : ChainErr), HaveBlock b block.hash = false →
      env.checkBlockSanityContextFree block flags = none →
      HaveBlock b block.prevBlock = true →
      env.isTreasuryAgendaActiveByHash b block.prevBlock = .error e →
      ProcessBlock env b block flags = (b, 0, some e))
    ∧ (∀ (env : Env) (t : Bool) (e : ChainErr), HaveBlock b block.hash = false →
      env.checkBlockSanityContextFree block flags = none →
      HaveBlock b block.prevBlock = true →
      env.isTreasuryAgendaActiveByHash b block.prevBlock = .ok t →
      env.checkBlockSanityContextual block flags t = some e →
      ProcessBlock env b block flags = (b, 0, some e))
    ∧ (∀ (env : Env) (t : Bool) (fl : Int) (b2 : BlockChain),
      HaveBlock b block.hash = false →
      env.checkBlockSanityContextFree block flags = none →
      HaveBlock b block.prevBlock = true →
      env.isTreasuryAgendaActiveByHash b block.prevBlock = .ok t →
      env.checkBlockSanityContextual block flags t = none →
      env.maybeAcceptBlock b block flags = .ok (fl, b2) →
      ProcessBlock env b block flags = (b2, fl, none)) := by
  refine ⟨?_, ?_, ?_, ?_, ?_, ?_⟩ <;> intros <;> simp_all [ProcessBlock]

/-- C5 witness: the block extending the tip runs the full pipeline of the
trivial environment and is accepted with the acceptor's result. -/
theorem C5_step_order_witness :
    ProcessBlock trivialEnv c1State wExt 0 = (c1State, 0, none) :=
  (C5_step_order c1State wExt 0).2.2.2.2.2 trivialEnv false 0 c1State
    (by decide) rfl (by decide) rfl rfl rfl

/-- C6: rejection is atomic and idempotent — whenever ProcessBlock returns
an error the chain state comes back unchanged (no partial insertion), and
running the very same call again on the returned state yields the identical
error with no mutation. -/
theorem C6_rejection_idempotent (env : Env) (b : BlockChain) (block : Block) (flags : Nat)
    (b2 : BlockChain) (fl : Int) (e : ChainErr)
    (h : ProcessBlock env b block flags = (b2, fl, some e)) :
    b2 = b ∧ ProcessBlock env b2 block flags = (b2, fl, some e) := by
  obtain ⟨hb, -⟩ := processBlock_error_cases env b block flags b2 fl e h
  subst hb
  exact ⟨rfl, h⟩

/-- C6 witness: the duplicate rejection of A3 leaves the state unchanged
and repeats identically on a second call. -/
theorem C6_rejection_idempotent_witness :
    c1State = c1State ∧
    ProcessBlock trivialEnv c1State wDup 0 =
      (c1State, 0, some (ruleError .ErrDuplicateBlock)) :=
  C6_rejection_idempotent trivialEnv c1State wDup 0 c1State 0
    (ruleError .ErrDuplicateBlock) (by decide)

/-- C10: whenever ProcessBlock returns an error — duplicate, sanity
failure, missing parent, agenda-resolution failure or acceptance failure —
the fork length it returns is exactly 0. -/
theorem C10_zero_fork_on_error (env : Env) (b : BlockChain) (block : Block) (flags : Nat)
    (b2 : BlockChain) (fl : Int) (e : ChainErr)
    (h : ProcessBlock env b block flags = (b2, fl, some e)) :
    fl = 0 :=
  (processBlock_error_cases env b block flags b2 fl e h).2

/-- C10 witness: the missing-parent rejection of an orphan returns fork
length 0. -/
theorem C10_zero_fork_on_error_witness :
    ProcessBlock trivialEnv c1State wOrphan 0 =
      (c1State, 0, some (ruleError .ErrMissingParent)) ∧ (0 : Int) = 0 :=
  ⟨by decide,
   C10_zero_fork_on_error trivialEnv c1State wOrphan 0 c1State 0
     (ruleError .ErrMissingParent) (by decide)⟩

/-- C1 counterexample: in the spec §8 reorganization scenario (cumulative
work of the side branch tip 5 exceeding the best tip's 3), accepting B3
succeeds, the pointer moves to B3, but the returned fork length is 0 — the
value the source documents for a block that becomes the best tip through a
reorganization (src/blockchain/process.go lines 43-46) — not 2 as the
claim states. -/
theorem C1_fork_length_counterexample :
    (lookupEntry c1State c1State.tip).map Entry.workSum = some 3 ∧
    (ProcessBlock specEnv c1State c1B3 0).2.2 = none ∧
    (ProcessBlock specEnv c1State c1B3 0).1.tip = c1B3.hash ∧
    (ProcessBlock specEnv c1State c1B3 0).2.1 = 0 ∧
    (ProcessBlock specEnv c1State c1B3 0).2.1 ≠ 2 := by
  refine ⟨by decide, by decide, by decide, by decide, by decide⟩

/-- C1 (amended): a block that extends the current best tip and passes the
sanity checks is accepted with fork length 0 and the best-chain pointer
advances to it; and in the reorganization scenario (best chain A1→A2→A3,
side branch B1→B2→B3 over ancestor A1, B3's cumulative work exceeding
A3's), accepting B3 demotes A2 and A3 to side chain, promotes B1, B2 and B3
to main chain, moves the pointer to B3, and returns fork length 0, the
documented value when a block becomes the best tip by causing a
reorganization. -/
theorem C1_fork_length_amended :
    (∀ (env : Env) (b : BlockChain) (block : Block) (flags : Nat) (t : Bool) (tipE : Entry),
      env.maybeAcceptBlock = maybeAcceptBlockSpec →
      HaveBlock b block.hash = false →
      env.checkBlockSanityContextFree block flags = none →
      block.prevBlock = b.tip →
      lookupEntry b b.tip = some tipE →
      env.isTreasuryAgendaActiveByHash b block.prevBlock = .ok t →
      env.checkBlockSanityContextual block flags t = none →
      ∃ b2 : BlockChain, ProcessBlock env b block flags = (b2, 0, none) ∧
        b2.tip = block.hash)
    ∧ ((ProcessBlock specEnv c1State c1B3 0).2.1 = 0
       ∧ (ProcessBlock specEnv c1State c1B3 0).2.2 = none
       ∧ (ProcessBlock specEnv c1State c1B3 0).1.tip = c1B3.hash
       ∧ (lookupEntry (ProcessBlock specEnv c1State c1B3 0).1 2).map Entry.inMainChain =
           some false
       ∧ (lookupEntry (ProcessBlock specEnv c1State c1B3 0).1 3).map Entry.inMainChain =
           some false
       ∧ (lookupEntry (ProcessBlock specEnv c1State c1B3 0).1 11).map Entry.inMainChain =
           some true
       ∧ (lookupEntry (ProcessBlock specEnv c1State c1B3 0).1 12).map Entry.inMainChain =
           some true
       ∧ (lookupEntry (ProcessBlock specEnv c1State c1B3 0).1 13).map Entry.inMainChain =
           some true) := by
  constructor
  · intro env b block flags t tipE hacc h1 h2 h3 h4 h5 h6
    have hprev : HaveBlock b b.tip = true := by
      unfold HaveBlock; rw [h4]; rfl
    have h5' : env.isTreasuryAgendaActiveByHash b b.tip = .ok t := h3 ▸ h5
    refine ⟨⟨b.entries ++
      [⟨block.hash, b.tip, tipE.height + 1, tipE.workSum + block.work, true⟩],
      block.hash⟩, ?_, rfl⟩
    simp [ProcessBlock, h1, h2, h3, hprev, h5', h6, hacc, maybeAcceptBlockSpec, h4]
  · refine ⟨by decide, by decide, by decide, by decide, by decide, by decide, by decide,
      by decide⟩

/-- C1 witness: the block extending A3 of the scenario state is accepted
with fork length 0 and the pointer advances to it. -/
theorem C1_fork_length_amended_witness :
    ∃ b2 : BlockChain, ProcessBlock specEnv c1State wExt 0 = (b2, 0, none) ∧
      b2.tip = wExt.hash :=
  C1_fork_length_amended.1 specEnv c1State wExt 0 false ⟨3, 2, 2, 3, true⟩
    rfl (by decide) rfl (by decide) (by decide) rfl rfl

/-! ## Lemmas about the hex transport -/

/-- Encoding then decoding one hex digit is the identity on nibbles. -/
theorem hexDigit_roundtrip : ∀ n, n < 16 → hexDigitVal (hexDigitChar n) = some n := by
  decide

/-- Hex characters of a cons, unfolded. -/
theorem hexEncodeChars_cons (b : Nat) (bs : List Nat) :
    hexEncodeChars (b :: bs) =
      hexDigitChar (b / 16) :: hexDigitChar (b % 16) :: hexEncodeChars bs := by
  simp [hexEncodeChars, byteToHex]

/-- Decoding the hex characters of a byte sequence returns the bytes. -/
theorem hexChars_roundtrip (bs : List Nat) (hb : ∀ b ∈ bs, b < 256) :
    hexDecodeChars (hexEncodeChars bs) = some bs := by
  induction bs with
  | nil => rfl
  | cons b rest ih =>
    have hb0 : b < 256 := hb b (by simp)
    have hdiv : b / 16 < 16 := by
      rw [Nat.div_lt_iff_lt_mul (by norm_num)]; omega
    have hmod : b % 16 < 16 := Nat.mod_lt _ (by norm_num)
    have ih' := ih (fun x hx => hb x (by simp [hx]))
    rw [hexEncodeChars_cons]
    simp only [hexDecodeChars, hexDigit_roundtrip _ hdiv, hexDigit_roundtrip _ hmod, ih']
    rw [Nat.div_add_mod]

/-- Decoding the hex string of a byte sequence returns the bytes. -/
theorem hexString_roundtrip (bs : List Nat) (hb : ∀ b ∈ bs, b < 256) :
    hexDecodeString (bytesToHexString bs) = some bs := by
  unfold hexDecodeString bytesToHexString
  exact hexChars_roundtrip bs hb

/-- Hex characters distribute over concatenation. -/
theorem hexEncodeChars_append (a b : List Nat) :
    hexEncodeChars (a ++ b) = hexEncodeChars a ++ hexEncodeChars b := by
  simp [hexEncodeChars]

/-- Hex strings distribute over concatenation. -/
theorem bytesToHexString_append (a b : List Nat) :
    bytesToHexString (a ++ b) = bytesToHexString a ++ bytesToHexString b := by
  show String.mk (hexEncodeChars (a ++ b)) = _
  rw [hexEncodeChars_append]
  rfl

/-! ## Lemmas about the hash chunker -/

/-- Chunking does not depend on the fuel once it covers the input length. -/
theorem chunkFuel_eq (f : Nat) : ∀ (g : Nat) (bs : List Nat),
    bs.length ≤ f → bs.length ≤ g → chunkFuel f bs = chunkFuel g bs := by
  induction f with
  | zero =>
    intro g bs h1 _
    have hbs : bs = [] := List.eq_nil_of_length_eq_zero (Nat.le_zero.mp h1)
    subst hbs; cases g <;> rfl
  | succ f ih =>
    intro g bs h1 h2
    cases bs with
    | nil => cases g <;> rfl
    | cons b rest =>
      cases g with
      | zero => simp at h2
      | succ g =>
        simp only [List.length_cons] at h1 h2
        simp only [chunkFuel]
        rw [ih g ((b :: rest).drop HashSize)
          (by simp only [List.length_drop, List.length_cons, HashSize]; omega)
          (by simp only [List.length_drop, List.length_cons, HashSize]; omega)]

/-- Chunking a nonempty byte sequence takes one hash and recurses. -/
theorem chunkHashes_cons (bs : List Nat) (h : bs ≠ []) :
    chunkHashes bs = bs.take HashSize :: chunkHashes (bs.drop HashSize) := by
  cases bs with
  | nil => exact absurd rfl h
  | cons b rest =>
    show chunkFuel (rest.length + 1) (b :: rest) = _
    simp only [chunkFuel]
    rw [chunkFuel_eq rest.length ((b :: rest).drop HashSize).length ((b :: rest).drop HashSize)
      (by simp only [List.length_drop, List.length_cons, HashSize]; omega) le_rfl]
    rfl

/-- Flattened well-formed hashes have a length that is a multiple of the
hash width. -/
theorem flatten_length_mod (hl : List (List Nat)) (hw : WFHashList hl) :
    hl.flatten.length % HashSize = 0 := by
  induction hl with
  | nil => rfl
  | cons h rest ih =>
    have hh := (hw h (by simp)).1
    have ih' := ih (fun x hx => hw x (by simp [hx]))
    rw [List.flatten_cons, List.length_append, hh]
    simp only [HashSize] at ih' ⊢
    omega

/-- Chunking the flattening of well-formed hashes recovers the hashes. -/
theorem chunk_roundtrip (hl : List (List Nat)) (hw : WFHashList hl) :
    chunkHashes hl.flatten = hl := by
  induction hl with
  | nil => rfl
  | cons h rest ih =>
    have hh := (hw h (by simp)).1
    have ih' := ih (fun x hx => hw x (by simp [hx]))
    have hne0 : h ≠ [] := by
      intro hc; rw [hc] at hh; simp [HashSize] at hh
    have hne : h ++ rest.flatten ≠ [] := by
      simp [List.append_eq_nil, hne0]
    simp only [List.flatten_cons]
    rw [chunkHashes_cons _ hne, show HashSize = h.length from hh.symm,
      List.take_left, List.drop_left, ih']

/-- Round trip of the concatenated hashes codec at the string level. -/
theorem hashes_roundtrip (hl : List (List Nat)) (hw : WFHashList hl) :
    DecodeConcatenatedHashes (EncodeConcatenatedHashes hl) = .ok hl := by
  unfold DecodeConcatenatedHashes EncodeConcatenatedHashes
  have hb : ∀ b ∈ hl.flatten, b < 256 := by
    intro b hbmem
    obtain ⟨l, hl1, hl2⟩ := List.mem_flatten.mp hbmem
    exact (hw l hl1).2 b hl2
  rw [hexString_roundtrip _ hb]
  have hm : (hl.flatten.length % HashSize == 0) = true := by
    rw [flatten_length_mod hl hw]; rfl
  show (if (hl.flatten.length % HashSize == 0) = true then
      Except.ok (chunkHashes hl.flatten) else Except.error CodecErr.invalidLength) =
    Except.ok hl
  rw [if_pos hm, chunk_roundtrip hl hw]

/-! ## Lemmas about the vote-bits codec -/

/-- Serialised records of a cons, unfolded. -/
theorem encodeVoteBitsBytes_cons (vb : VoteBits) (rest : List VoteBits) :
    encodeVoteBitsBytes (vb :: rest) =
      encodeVoteBitsRecord vb ++ encodeVoteBitsBytes rest := by
  simp [encodeVoteBitsBytes]

/-- Decoding does not depend on the fuel once it covers the input length. -/
theorem decodeFuel_eq (f : Nat) : ∀ (g : Nat) (bs : List Nat),
    bs.length ≤ f → bs.length ≤ g →
    decodeVoteBitsFuel f bs = decodeVoteBitsFuel g bs := by
  induction f with
  | zero =>
    intro g bs h1 _
    have hbs : bs = [] := List.eq_nil_of_length_eq_zero (Nat.le_zero.mp h1)
    subst hbs; cases g <;> rfl
  | succ f ih =>
    intro g bs h1 h2
    cases bs with
    | nil => cases g <;> rfl
    | cons recLen rest =>
      cases g with
      | zero => simp at h2
      | succ g =>
        simp only [List.length_cons] at h1 h2
        simp only [decodeVoteBitsFuel]
        rw [ih g (rest.drop recLen)
          (by simp only [List.length_drop]; omega)
          (by simp only [List.length_drop]; omega)]

/-- One step of the vote-bits decode loop on a cons. -/
theorem decodeVoteBitsList_cons (recLen : Nat) (rest : List Nat) :
    decodeVoteBitsList (recLen :: rest) =
      if recLen < 2 then .error .invalidLength
      else if rest.length < recLen then .error .shortRead
      else
        match decodeVoteBitsList (rest.drop recLen) with
        | .ok vbs =>
          .ok (⟨rest.getD 0 0 + 256 * rest.getD 1 0, (rest.drop 2).take (recLen - 2)⟩ :: vbs)
        | .error e => .error e := by
  show decodeVoteBitsFuel ((recLen :: rest).length) (recLen :: rest) = _
  simp only [List.length_cons, decodeVoteBitsFuel]
  rw [decodeFuel_eq rest.length (rest.drop recLen).length (rest.drop recLen)
    (by simp only [List.length_drop]; omega) le_rfl]
  rfl

/-- Decoding a serialised record followed by arbitrary bytes yields the
record followed by the decoding of the remaining bytes. -/
theorem decode_record_append (vb : VoteBits) (tail : List Nat) :
    decodeVoteBitsList (encodeVoteBitsRecord vb ++ tail) =
      (decodeVoteBitsList tail).map (fun vbs => vb :: vbs) := by
  obtain ⟨bits, ext⟩ := vb
  show decodeVoteBitsList
      ((2 + ext.length) :: ((bits % 256) :: (bits / 256) :: (ext ++ tail))) = _
  rw [decodeVoteBitsList_cons]
  rw [if_neg (by omega)]
  rw [if_neg (by simp only [List.length_cons, List.length_append]; omega)]
  have hdrop : ((bits % 256) :: (bits / 256) :: (ext ++ tail)).drop (2 + ext.length) = tail := by
    rw [show 2 + ext.length = (ext.length + 1) + 1 from by omega,
      List.drop_succ_cons, List.drop_succ_cons, List.drop_left]
  have hext : ((((bits % 256) :: (bits / 256) :: (ext ++ tail)).drop 2)).take
      ((2 + ext.length) - 2) = ext := by
    show (ext ++ tail).take ((2 + ext.length) - 2) = ext
    rw [show (2 + ext.length) - 2 = ext.length from by omega]
    exact List.take_left ext tail
  rw [hdrop, hext]
  have hbits : (((bits % 256) :: (bits / 256) :: (ext ++ tail)).getD 0 0) +
      256 * (((bits % 256) :: (bits / 256) :: (ext ++ tail)).getD 1 0) = bits := by
    show bits % 256 + 256 * (bits / 256) = bits
    exact Nat.mod_add_div bits 256
  rw [hbits]
  cases decodeVoteBitsList tail <;> rfl

/-- Round trip of the vote-bits codec at the byte level: decoding the
serialised records recovers them exactly. -/
theorem decode_encode_bytes (vl : List VoteBits) :
    decodeVoteBitsList (encodeVoteBitsBytes vl) = .ok vl := by
  induction vl with
  | nil => rfl
  | cons vb rest ih =>
    rw [encodeVoteBitsBytes_cons, decode_record_append, ih]
    rfl

/-- Every byte of the serialisation of well-formed records is a byte. -/
theorem encode_bytes_lt (vl : List VoteBits) (hw : WFVoteBitsList vl) :
    ∀ b ∈ encodeVoteBitsBytes vl, b < 256 := by
  intro b hb
  simp only [encodeVoteBitsBytes] at hb
  obtain ⟨l, hl1, hl2⟩ := List.mem_flatten.mp hb
  obtain ⟨vb, hvb, rfl⟩ := List.mem_map.mp hl1
  obtain ⟨h1, h2, h3⟩ := hw vb hvb
  simp only [MaxSingleBytePushLength] at h2
  simp only [encodeVoteBitsRecord, List.mem_cons] at hl2
  rcases hl2 with rfl | rfl | rfl | hmem
  · omega
  · exact Nat.mod_lt _ (by norm_num)
  · rw [Nat.div_lt_iff_lt_mul (by norm_num)]; omega
  · exact h3 b hmem

/-- Encoding well-formed records succeeds and yields the hex string of
their serialisation. -/
theorem encode_vb_ok (vl : List VoteBits) (hw : WFVoteBitsList vl) :
    EncodeConcatenatedVoteBits vl = .ok (bytesToHexString (encodeVoteBitsBytes vl)) := by
  unfold EncodeConcatenatedVoteBits
  rw [if_neg ?_]
  intro hc
  obtain ⟨vb, hvb, hgt⟩ := List.any_eq_true.mp hc
  have h2 := (hw vb hvb).2.1
  exact absurd (of_decide_eq_true hgt) (not_lt.mpr h2)

/-- Decoding the hex string of a byte sequence runs the byte-level decode
loop on the bytes. -/
theorem decodeVB_hex (bs : List Nat) (hb : ∀ b ∈ bs, b < 256) :
    DecodeConcatenatedVoteBits (bytesToHexString bs) = decodeVoteBitsList bs := by
  unfold DecodeConcatenatedVoteBits
  rw [hexString_roundtrip bs hb]

/-- Serialised records of a nonempty list are nonempty. -/
theorem encodeVoteBitsBytes_ne_nil (vb : VoteBits) (rest : List VoteBits) :
    encodeVoteBitsBytes (vb :: rest) ≠ [] := by
  rw [encodeVoteBitsBytes_cons]
  simp [encodeVoteBitsRecord]

/-- Dropping the last byte of a nonempty valid serialisation makes the
decode loop fail. -/
theorem decode_dropLast_err (vl : List VoteBits) (hne : vl ≠ []) :
    isCodecErr (decodeVoteBitsList ((encodeVoteBitsBytes vl).dropLast)) = true := by
  induction vl with
  | nil => exact absurd rfl hne
  | cons vb rest ih =>
    cases rest with
    | nil =>
      obtain ⟨bits, ext⟩ := vb
      have hb : encodeVoteBitsBytes [⟨bits, ext⟩] =
          (2 + ext.length) :: ((bits % 256) :: (bits / 256) :: ext) := by
        simp [encodeVoteBitsBytes, encodeVoteBitsRecord]
      rw [hb, List.dropLast_cons_of_ne_nil (by simp)]
      rw [decodeVoteBitsList_cons, if_neg (by omega), if_pos ?_]
      · rfl
      · simp only [List.length_dropLast, List.length_cons]; omega
    | cons vb2 rest2 =>
      have hne2 : encodeVoteBitsBytes (vb2 :: rest2) ≠ [] :=
        encodeVoteBitsBytes_ne_nil vb2 rest2
      have ih' := ih (by simp)
      rw [encodeVoteBitsBytes_cons, List.dropLast_append_of_ne_nil _ hne2,
        decode_record_append]
      cases hX : decodeVoteBitsList ((encodeVoteBitsBytes (vb2 :: rest2)).dropLast) with
      | error e => rfl
      | ok v => rw [hX] at ih'; simp [isCodecErr] at ih'

/-- Appending one byte to a valid serialisation makes the decode loop
fail: the trailing byte is either an undersized length prefix or a record
running past the end. -/
theorem decode_append_byte_err (vl : List VoteBits) (x : Nat) :
    isCodecErr (decodeVoteBitsList (encodeVoteBitsBytes vl ++ [x])) = true := by
  induction vl with
  | nil =>
    show isCodecErr (decodeVoteBitsList ([] ++ [x])) = true
    rw [List.nil_append, decodeVoteBitsList_cons]
    by_cases hx : x < 2
    · rw [if_pos hx]; rfl
    · rw [if_neg hx, if_pos (by simp only [List.length_nil]; omega)]; rfl
  | cons vb rest ih =>
    rw [encodeVoteBitsBytes_cons, List.append_assoc, decode_record_append]
    cases hX : decodeVoteBitsList (encodeVoteBitsBytes rest ++ [x]) with
    | error e => rfl
    | ok v => rw [hX] at ih; simp [isCodecErr] at ih

/-- A length prefix below the minimum record size makes the decode loop
fail at once. -/
theorem decode_smallPrefix_err (recLen : Nat) (rest : List Nat) (h : recLen < 2) :
    isCodecErr (decodeVoteBitsList (recLen :: rest)) = true := by
  rw [decodeVoteBitsList_cons, if_pos h]; rfl

/-! ## Theorems about the codecs -/

/-- C7 counterexample: the vote-bits record {Bits 0, ExtendedBits []} does
not encode to a 2-byte length prefix 0x02 0x00 followed by Bits 0x00 0x00
(hex "02000000"); it encodes to the 3-byte form "020000" — a one-byte
length prefix 0x02 followed by the 2-byte little-endian Bits field — as the
in-repository corpus TestEncodeConcatenatedVoteBits pins. -/
theorem C7_two_byte_prefix_counterexample :
    EncodeConcatenatedVoteBits [⟨0, []⟩] = .ok "020000" ∧
    ("020000" : String) ≠ "02000000" := by
  refine ⟨by decide, by decide⟩

/-- C7 (amended): each vote-bits record is encoded as a ONE-byte
total-record-length prefix, followed by the 2-byte little-endian Bits
field, followed by the ExtendedBits bytes; the record {Bits 0,
ExtendedBits []} encodes to the bytes 0x02 0x00 0x00, and the full
in-repository corpus list encodes to its expected byte string. -/
theorem C7_votebits_record_format :
    (∀ vb : VoteBits, encodeVoteBitsRecord vb =
      (2 + vb.ExtendedBits.length) :: (vb.Bits % 256) :: (vb.Bits / 256) :: vb.ExtendedBits)
    ∧ EncodeConcatenatedVoteBits [⟨0, []⟩] = .ok "020000"
    ∧ EncodeConcatenatedVoteBits
        [⟨0, []⟩, ⟨0, [0]⟩, ⟨0x1223, [1, 2, 3, 4]⟩, ⟨0xaaaa, [1, 2, 3, 4, 5]⟩] =
      .ok "020000030000000623120102030407aaaa0102030405" := by
  refine ⟨fun vb => rfl, by decide, by decide⟩

/-- C8: the hash-list codec round-trips for every well-formed list of
fixed-width hashes; encoding zero hashes yields the empty string; encoding
a cons yields the hash's raw-byte hex followed, with no separator, by the
encoding of the rest; and the vote-bits codec round-trips for every
well-formed list of records. -/
theorem C8_codec_roundtrip :
    (∀ hl : List (List Nat), WFHashList hl →
      DecodeConcatenatedHashes (EncodeConcatenatedHashes hl) = .ok hl)
    ∧ EncodeConcatenatedHashes [] = ""
    ∧ (∀ (h : List Nat) (hl : List (List Nat)),
      EncodeConcatenatedHashes (h :: hl) = bytesToHexString h ++ EncodeConcatenatedHashes hl)
    ∧ (∀ vl : List VoteBits, WFVoteBitsList vl →
      ∃ s, EncodeConcatenatedVoteBits vl = .ok s ∧ DecodeConcatenatedVoteBits s = .ok vl) := by
  refine ⟨hashes_roundtrip, by decide, ?_, ?_⟩
  · intro h hl
    show bytesToHexString ((h :: hl).flatten) = _
    rw [List.flatten_cons, bytesToHexString_append]
    rfl
  · intro vl hw
    refine ⟨bytesToHexString (encodeVoteBitsBytes vl), encode_vb_ok vl hw, ?_⟩
    rw [decodeVB_hex _ (encode_bytes_lt vl hw), decode_encode_bytes]

/-- C8 witness: a one-hash list and a one-record list both round-trip. -/
theorem C8_codec_roundtrip_witness :
    DecodeConcatenatedHashes (EncodeConcatenatedHashes [List.range 32]) =
      .ok [List.range 32] ∧
    ∃ s, EncodeConcatenatedVoteBits [⟨0x1223, [1, 2, 3, 4]⟩] = .ok s ∧
      DecodeConcatenatedVoteBits s = .ok [⟨0x1223, [1, 2, 3, 4]⟩] :=
  ⟨C8_codec_roundtrip.1 [List.range 32] (by decide),
   C8_codec_roundtrip.2.2.2 [⟨0x1223, [1, 2, 3, 4]⟩] (by decide)⟩

/-- C9: vote-bits codec failures are total rejections — decoding the hex
string of a valid encoding with its last byte removed fails; decoding a
valid encoding with one extra byte appended fails; decoding any input whose
first record-length prefix is below the minimum 2-byte Bits size fails; and
encoding fails for any list containing a record whose ExtendedBits exceed
the maximum allowed size. -/
theorem C9_codec_total_rejection :
    (∀ vl : List VoteBits, WFVoteBitsList vl → vl ≠ [] →
      isCodecErr (DecodeConcatenatedVoteBits
        (bytesToHexString ((encodeVoteBitsBytes vl).dropLast))) = true)
    ∧ (∀ (vl : List VoteBits) (x : Nat), WFVoteBitsList vl → x < 256 →
      isCodecErr (DecodeConcatenatedVoteBits
        (bytesToHexString (encodeVoteBitsBytes vl ++ [x]))) = true)
    ∧ (∀ (recLen : Nat) (rest : List Nat), recLen < 2 → (∀ b ∈ rest, b < 256) →
      isCodecErr (DecodeConcatenatedVoteBits (bytesToHexString (recLen :: rest))) = true)
    ∧ (∀ (vl : List VoteBits) (vb : VoteBits), vb ∈ vl →
      MaxSingleBytePushLength - 2 < vb.ExtendedBits.length →
      isCodecErr (EncodeConcatenatedVoteBits vl) = true) := by
  refine ⟨?_, ?_, ?_, ?_⟩
  · intro vl hw hne
    rw [decodeVB_hex _ (fun b hb => encode_bytes_lt vl hw b (List.dropLast_subset _ hb))]
    exact decode_dropLast_err vl hne
  · intro vl x hw hx
    rw [decodeVB_hex]
    · exact decode_append_byte_err vl x
    · intro b hb
      rcases List.mem_append.mp hb with h | h
      · exact encode_bytes_lt vl hw b h
      · simp only [List.mem_singleton] at h; omega
  · intro recLen rest h hr
    rw [decodeVB_hex]
    · exact decode_smallPrefix_err recLen rest h
    · intro b hb
      rcases List.mem_cons.mp hb with rfl | hm
      · omega
      · exact hr b hm
  · intro vl vb hmem hgt
    unfold EncodeConcatenatedVoteBits
    rw [if_pos (List.any_eq_true.mpr ⟨vb, hmem, decide_eq_true hgt⟩)]
    rfl

/-- List of records decoded by the in-repository corpus
TestDecodeConcatenatedVoteBits. -/
def c9Vbs : List VoteBits :=
  [⟨0, [0]⟩, ⟨0x1223, [1, 2, 3, 4]⟩, ⟨0xaaaa, [1, 2, 3, 4, 5]⟩]

/-- C9 witness: the corpus rejection scenarios — one byte short, one byte
long, an undersized length prefix, and a 74-byte extended-bits record —
all fail. -/
theorem C9_codec_total_rejection_witness :
    isCodecErr (DecodeConcatenatedVoteBits
      (bytesToHexString ((encodeVoteBitsBytes c9Vbs).dropLast))) = true ∧
    isCodecErr (DecodeConcatenatedVoteBits
      (bytesToHexString (encodeVoteBitsBytes c9Vbs ++ [6]))) = true ∧
    isCodecErr (DecodeConcatenatedVoteBits (bytesToHexString (1 :: [0, 0, 0]))) = true ∧
    isCodecErr (EncodeConcatenatedVoteBits [⟨0, List.replicate 74 0⟩]) = true :=
  ⟨C9_codec_total_rejection.1 c9Vbs (by decide) (by decide),
   C9_codec_total_rejection.2.1 c9Vbs 6 (by decide) (by decide),
   C9_codec_total_rejection.2.2.1 1 [0, 0, 0] (by decide) (by decide),
   C9_codec_total_rejection.2.2.2 [⟨0, List.replicate 74 0⟩] ⟨0, List.replicate 74 0⟩
     (by decide) (by decide)⟩

end DcrdSpec
